import Mathlib

/-!
# Verification of the association-rules recommendation app

Shallow embedding of the rule-table operations of `app.py` (a Streamlit
front-end over a precomputed pandas table of association rules), and proofs
of the specification's testable properties about them.

Modelling conventions:
* a pandas DataFrame row becomes a `Rule` record; the table becomes a
  `List Rule` kept in its stored order;
* the `frozenset` columns `antecedents` / `consequents` become `List String`
  recording the set's iteration order (the spec itself notes that the code
  depends on that order when rendering);
* `float` statistics columns become `ℚ`; the claims under study only compare,
  average and order these values, which rationals model faithfully;
* pandas boolean-mask filtering becomes `List.filter`;
* `DataFrame.nlargest(n, col)` (default `keep = first`) selects, for equal
  keys, the earliest rows, and returns the rows sorted by the key descending
  with ties in input order; this is exactly a stable descending sort followed
  by `take n`, which we embed with `List.insertionSort` (stable) plus
  `List.take`.
-/

/-- One row of the association-rules table (columns of the persisted
artifact: `antecedents`, `consequents`, `support`, `confidence`, `lift`). -/
structure Rule where
  antecedents : List String
  consequents : List String
  support : ℚ
  confidence : ℚ
  lift : ℚ
deriving DecidableEq

/-- `app.py` lines 50-53: the threshold filter
`rules[(rules.confidence >= min_confidence) & (rules.lift >= min_lift)]`. -/
def rules_filtered (rules : List Rule) (min_confidence min_lift : ℚ) : List Rule :=
  rules.filter (fun t => decide (min_confidence ≤ t.confidence) && decide (min_lift ≤ t.lift))

/-- C1: `rules_filtered` returns exactly the rules meeting both thresholds:
it is a sublist (hence subset) of the input, every returned rule satisfies
`confidence >= c` and `lift >= l`, and every input rule failing either
inequality is absent from the result. -/
theorem c1_filter_exact (R : List Rule) (c l : ℚ) :
    (rules_filtered R c l).Sublist R ∧
    (∀ t ∈ rules_filtered R c l, c ≤ t.confidence ∧ l ≤ t.lift) ∧
    (∀ t ∈ R, ¬(c ≤ t.confidence ∧ l ≤ t.lift) → t ∉ rules_filtered R c l) := by
  refine ⟨List.filter_sublist R, ?_, ?_⟩
  · intro t ht
    have h := List.of_mem_filter ht
    simp only [Bool.and_eq_true, decide_eq_true_eq] at h
    exact h
  · intro t _ hfail hmem
    have h := List.of_mem_filter hmem
    simp only [Bool.and_eq_true, decide_eq_true_eq] at h
    exact hfail h

/-- C1 witness: the filter evaluated on a concrete two-rule table. -/
theorem c1_filter_exact_witness :
    (⟨["bread"], ["butter"], 1, 1, 2⟩ : Rule) ∈
      rules_filtered [⟨["bread"], ["butter"], 1, 1, 2⟩,
                      ⟨["bread"], ["jam"], 1, 0, 1⟩] 1 2 ∧
    (1 : ℚ) ≤ 1 ∧ (2 : ℚ) ≤ 2 := by
  refine ⟨by decide, ?_⟩
  exact (c1_filter_exact [⟨["bread"], ["butter"], 1, 1, 2⟩,
    ⟨["bread"], ["jam"], 1, 0, 1⟩] 1 2).2.1
    ⟨["bread"], ["butter"], 1, 1, 2⟩ (by decide)

/-- Executable strict lexicographic comparison of character lists by code
point, mirroring Python's string `<` (which `sorted` uses).  It decides the
`List.lt` order that Lean's `String` order is built on. -/
def lexLt : List Char → List Char → Bool
  | _, [] => false
  | [], _ :: _ => true
  | a :: as, b :: bs => if a < b then true else if b < a then false else lexLt as bs

/-- Non-strict string comparison: `a` comes no later than `b`. -/
def strLe (a b : String) : Bool := !(lexLt b.data a.data)

lemma lexLt_iff (as bs : List Char) : lexLt as bs = true ↔ List.Lex (· < ·) as bs := by
  induction as generalizing bs with
  | nil =>
    cases bs with
    | nil =>
      simp only [lexLt, Bool.false_eq_true, false_iff]
      intro h; cases h
    | cons b bs =>
      simp only [lexLt, true_iff]
      exact List.Lex.nil
  | cons a as ih =>
    cases bs with
    | nil =>
      simp only [lexLt, Bool.false_eq_true, false_iff]
      intro h; cases h
    | cons b bs =>
      simp only [lexLt]
      split_ifs with h1 h2
      · simp only [true_iff]
        exact List.Lex.rel h1
      · simp only [false_iff]
        intro h
        cases h with
        | cons h => exact absurd h2 (lt_irrefl a)
        | rel h => exact h1 h
      · obtain rfl : a = b := le_antisymm (not_lt.mp h2) (not_lt.mp h1)
        rw [ih]
        constructor
        · exact fun h => List.Lex.cons h
        · intro h
          cases h with
          | cons h => exact h
          | rel h => exact absurd h h1

lemma strLe_iff (a b : String) : strLe a b = true ↔ a ≤ b := by
  have hlt : lexLt b.data a.data = true ↔ b < a := by
    rw [lexLt_iff]
    exact (@String.lt_iff_toList_lt b a).symm
  constructor
  · intro hs
    refine not_lt.mp ?_
    rw [← hlt]
    intro hcontra
    rw [strLe, hcontra] at hs
    simp at hs
  · intro hle
    have h2 : lexLt b.data a.data = false := by
      rw [← Bool.not_eq_true, hlt]
      exact not_lt.mpr hle
    rw [strLe, h2]
    rfl

/-- `app.py` lines 65-68: the selectable item list — the union of the items of
all antecedents of the FULL table, deduplicated (Python `set`) and sorted
(Python `sorted`, lexicographic by code point). -/
def all_products (rules : List Rule) : List String :=
  List.insertionSort (fun a b => strLe a b = true)
    ((rules.map Rule.antecedents).flatten.dedup)

lemma mem_all_products (R : List Rule) (x : String) :
    x ∈ all_products R ↔ ∃ t ∈ R, x ∈ t.antecedents := by
  rw [all_products, (List.perm_insertionSort _ _).mem_iff, List.mem_dedup,
    List.mem_flatten]
  constructor
  · rintro ⟨l, hl, hx⟩
    obtain ⟨t, ht, rfl⟩ := List.mem_map.mp hl
    exact ⟨t, ht, hx⟩
  · rintro ⟨t, ht, hx⟩
    exact ⟨t.antecedents, List.mem_map.mpr ⟨t, ht, rfl⟩, hx⟩

/-- C8: `all_products` is the union of the antecedent items over the full
table, with duplicates removed and sorted ascending lexicographically. -/
theorem c8_all_products (R : List Rule) :
    (∀ x : String, x ∈ all_products R ↔ ∃ t ∈ R, x ∈ t.antecedents) ∧
    (all_products R).Sorted (· ≤ ·) ∧ (all_products R).Nodup := by
  refine ⟨mem_all_products R, ?_, ?_⟩
  · have : List.Sorted (fun a b => strLe a b = true) (all_products R) := by
      haveI : IsTotal String (fun a b => strLe a b = true) :=
        ⟨fun a b => by
          rw [strLe_iff, strLe_iff]
          exact le_total a b⟩
      haveI : IsTrans String (fun a b => strLe a b = true) :=
        ⟨fun a b c hab hbc => by
          rw [strLe_iff] at hab hbc ⊢
          exact le_trans hab hbc⟩
      exact List.sorted_insertionSort _ _
    exact this.imp (fun h => (strLe_iff _ _).mp h)
  · exact ((List.perm_insertionSort _ _).nodup_iff).mpr (List.nodup_dedup _)

/-- C7: the threshold filter is idempotent: filtering twice with the same
thresholds equals filtering once. -/
theorem c7_filter_idempotent (R : List Rule) (c l : ℚ) :
    rules_filtered (rules_filtered R c l) c l = rules_filtered R c l := by
  unfold rules_filtered
  rw [List.filter_filter]
  apply List.filter_congr
  intro t _
  rw [Bool.and_self]

/-- The descending-by-lift ranking relation: `a` ranks no worse than `b`. -/
def liftGe (a b : Rule) : Prop := b.lift ≤ a.lift

instance : DecidableRel liftGe :=
  fun a b => inferInstanceAs (Decidable (b.lift ≤ a.lift))

instance : IsTotal Rule liftGe := ⟨fun a b => le_total b.lift a.lift⟩

instance : IsTrans Rule liftGe := ⟨fun _ _ _ hab hbc => le_trans hbc hab⟩

/-- pandas `DataFrame.nlargest(n, lift)` with the default `keep = first`:
the rows sorted by `lift` descending with equal-lift rows kept in input order
(pandas argsorts the negated key with a stable mergesort), truncated to `n`.
A stable descending sort followed by `take n` is exactly that. -/
def nlargest (n : ℕ) (l : List Rule) : List Rule :=
  (l.insertionSort liftGe).take n

/-- `app.py` lines 85-93: the recommender — keep the rules of the filtered
view whose antecedent contains the selected product (Python `in` on a
frozenset: exact membership), then rank with `nlargest(top_n, lift)`. -/
def recommendations (rules_filtered : List Rule) (selected_product : String)
    (top_n : ℕ) : List Rule :=
  nlargest top_n (rules_filtered.filter (fun t => decide (selected_product ∈ t.antecedents)))

lemma recommendations_subset (S : List Rule) (i : String) (n : ℕ) {t : Rule}
    (ht : t ∈ recommendations S i n) : t ∈ S := by
  have h1 : t ∈ (S.filter (fun t => decide (i ∈ t.antecedents))).insertionSort liftGe :=
    (List.take_sublist _ _).subset ht
  have h2 := (List.perm_insertionSort liftGe _).subset h1
  exact List.mem_of_mem_filter h2

lemma filter_key_orderedInsert (v : ℚ) (x : Rule) (s : List Rule) :
    (List.orderedInsert liftGe x s).filter (fun t => decide (t.lift = v)) =
      if x.lift = v then x :: s.filter (fun t => decide (t.lift = v))
      else s.filter (fun t => decide (t.lift = v)) := by
  induction s with
  | nil =>
    simp only [List.orderedInsert, List.filter]
    split_ifs with h <;> simp [h]
  | cons y ys ih =>
    simp only [List.orderedInsert]
    by_cases hxy : liftGe x y
    · rw [if_pos hxy, List.filter_cons, List.filter_cons]
      by_cases hxv : x.lift = v <;> simp [hxv]
    · rw [if_neg hxy, List.filter_cons, List.filter_cons, ih]
      have hlt : x.lift < y.lift := not_le.mp hxy
      by_cases hxv : x.lift = v
      · have hyv : ¬ y.lift = v := by
          intro h
          rw [hxv, ← h] at hlt
          exact absurd hlt (lt_irrefl _)
        simp [hxv, hyv]
      · by_cases hyv : y.lift = v <;> simp [hxv, hyv]

lemma filter_key_insertionSort (v : ℚ) (l : List Rule) :
    (l.insertionSort liftGe).filter (fun t => decide (t.lift = v)) =
      l.filter (fun t => decide (t.lift = v)) := by
  induction l with
  | nil => rfl
  | cons x xs ih =>
    simp only [List.insertionSort]
    rw [filter_key_orderedInsert, ih, List.filter_cons]
    by_cases h : x.lift = v <;> simp [h]

/-- C2: every recommended rule's antecedent contains the selected item; the
result has at most min(topN, matching-count) entries; it is sorted by lift
descending; and ties are broken stably: for each lift value, the returned
rules of that lift are a sublist (same relative order) of the matching input
rules of that lift. -/
theorem c2_recommendations (R : List Rule) (i : String) (n : ℕ) (_hn : 1 ≤ n) :
    (∀ t ∈ recommendations R i n, i ∈ t.antecedents) ∧
    (recommendations R i n).length ≤
      min n (R.filter (fun t => decide (i ∈ t.antecedents))).length ∧
    (recommendations R i n).Pairwise (fun a b => b.lift ≤ a.lift) ∧
    (∀ v : ℚ, ((recommendations R i n).filter (fun t => decide (t.lift = v))).Sublist
      ((R.filter (fun t => decide (i ∈ t.antecedents))).filter
        (fun t => decide (t.lift = v)))) := by
  refine ⟨?_, ?_, ?_, ?_⟩
  · intro t ht
    have h1 : t ∈ (R.filter (fun t => decide (i ∈ t.antecedents))).insertionSort liftGe :=
      (List.take_sublist _ _).subset ht
    have h2 := (List.perm_insertionSort liftGe _).subset h1
    have h3 := List.of_mem_filter h2
    exact of_decide_eq_true h3
  · show (List.take n _).length ≤ _
    rw [List.length_take, (List.perm_insertionSort liftGe _).length_eq]
  · have hs : ((R.filter (fun t => decide (i ∈ t.antecedents))).insertionSort
        liftGe).Pairwise liftGe := List.sorted_insertionSort liftGe _
    exact List.Pairwise.sublist (List.take_sublist _ _) hs
  · intro v
    have hsub : ((recommendations R i n).filter (fun t => decide (t.lift = v))).Sublist
        (((R.filter (fun t => decide (i ∈ t.antecedents))).insertionSort
          liftGe).filter (fun t => decide (t.lift = v))) :=
      List.Sublist.filter _ (List.take_sublist _ _)
    rwa [filter_key_insertionSort] at hsub

/-- A concrete table with a lift tie, used to exercise the recommender. -/
def breadTable : List Rule :=
  [⟨["bread"], ["butter"], 1, 1, 3⟩,
   ⟨["bread"], ["jam"], 1, 1, 3⟩,
   ⟨["milk"], ["bread"], 1, 1, 5⟩]

/-- C2 witness: the recommender evaluated on `breadTable` with topN 2. -/
theorem c2_recommendations_witness :
    1 ≤ 2 ∧
    ((∀ t ∈ recommendations breadTable "bread" 2, "bread" ∈ t.antecedents) ∧
      (recommendations breadTable "bread" 2).length ≤
        min 2 (breadTable.filter (fun t => decide ("bread" ∈ t.antecedents))).length ∧
      (recommendations breadTable "bread" 2).Pairwise (fun a b => b.lift ≤ a.lift) ∧
      (∀ v : ℚ, ((recommendations breadTable "bread" 2).filter
          (fun t => decide (t.lift = v))).Sublist
        ((breadTable.filter (fun t => decide ("bread" ∈ t.antecedents))).filter
          (fun t => decide (t.lift = v))))) :=
  ⟨by decide, c2_recommendations breadTable "bread" 2 (by decide)⟩

/-- C9: the recommender is deterministic — two calls with identical inputs
return identical output sequences, tie order included; the embedded pipeline
is a pure function of (rules, item, topN). -/
theorem c9_deterministic (R₁ R₂ : List Rule) (i₁ i₂ : String) (n₁ n₂ : ℕ)
    (hR : R₁ = R₂) (hi : i₁ = i₂) (hn : n₁ = n₂) :
    recommendations R₁ i₁ n₁ = recommendations R₂ i₂ n₂ := by
  rw [hR, hi, hn]

/-- C9 witness: determinism instantiated at a concrete call. -/
theorem c9_deterministic_witness :
    ([⟨["bread"], ["butter"], 1, 1, 2⟩] : List Rule) = [⟨["bread"], ["butter"], 1, 1, 2⟩] ∧
    recommendations [⟨["bread"], ["butter"], 1, 1, 2⟩] "bread" 5 =
      recommendations [⟨["bread"], ["butter"], 1, 1, 2⟩] "bread" 5 :=
  ⟨rfl, c9_deterministic _ _ _ _ _ _ rfl rfl rfl⟩

/-- A concrete demo table: "milk" occurs in an antecedent of the full table,
but its only rule has lift 1, below a minLift of 2. -/
def demoRules : List Rule :=
  [⟨["bread"], ["butter"], 1, 1, 3⟩,
   ⟨["milk"], ["bread"], 1, 1, 1⟩]

/-- C10: recommendations are computed over the threshold-filtered view, so
every rule the pipeline returns meets the active thresholds; the selectable
item list comes from the full table, so a selectable item can yield an empty
recommendation list under the active thresholds ("milk" in `demoRules` with
minLift 2). -/
theorem c10_pipeline (R : List Rule) (c l : ℚ) (i : String) (n : ℕ) :
    (∀ t ∈ recommendations (rules_filtered R c l) i n,
      c ≤ t.confidence ∧ l ≤ t.lift) ∧
    ("milk" ∈ all_products demoRules ∧
      recommendations (rules_filtered demoRules 0 2) "milk" 5 = []) := by
  refine ⟨?_, ?_, ?_⟩
  · intro t ht
    have h1 : t ∈ rules_filtered R c l := recommendations_subset _ _ _ ht
    have h2 := List.of_mem_filter h1
    simp only [Bool.and_eq_true, decide_eq_true_eq] at h2
    exact h2
  · decide
  · decide

/-- C10 witness: the pipeline invariant instantiated on `demoRules` with
thresholds (0, 2) at the returned rule bread → butter. -/
theorem c10_pipeline_witness :
    (⟨["bread"], ["butter"], 1, 1, 3⟩ : Rule) ∈
      recommendations (rules_filtered demoRules 0 2) "bread" 5 ∧
    ((0 : ℚ) ≤ 1 ∧ (2 : ℚ) ≤ 3) :=
  ⟨by decide, (c10_pipeline demoRules 0 2 "bread" 5).1
    ⟨["bread"], ["butter"], 1, 1, 3⟩ (by decide)⟩

/-- Python `", ".join(items)` (`app.py` lines 123-128): the textual rendering
of an item set, in iteration order. -/
def joinComma (items : List String) : String :=
  String.intercalate ", " items

/-- Case-insensitive character comparison, as compiling a pattern with
`re.IGNORECASE` (what `Series.str.contains(..., case=False)` does) makes
each literal character match both cases. -/
def charEqCI (a b : Char) : Bool := a.toLower == b.toLower

/-- A compiled pattern token: the any-character wildcard or a literal. -/
inductive RTok where
  | dot : RTok
  | lit : Char → RTok
deriving DecidableEq

/-- Compile a pattern string into tokens.  `Series.str.contains` defaults to
`regex=True`, so the query is a regular-expression pattern; the embedding
models the fragment built from literal characters and the `.` wildcard
only — patterns using any other regex metacharacter are outside the
modelled fragment (the settling theorem restricts itself to
metacharacter-free queries accordingly). -/
def compilePat (p : List Char) : List RTok :=
  p.map (fun c => if c = '.' then RTok.dot else RTok.lit c)

/-- The characters Python's `re` treats specially inside a pattern.  A query
containing none of them is matched by `re.search` exactly as a literal
substring. -/
def isRegexMeta (c : Char) : Bool :=
  c = '.' || c = '*' || c = '+' || c = '?' || c = '[' || c = ']' ||
  c = '(' || c = ')' || c = '|' || c = '\\' || c = '^' || c = '$' ||
  c = '{' || c = '}'

/-- Match the whole token list against a prefix of the text. -/
def matchHere : List RTok → List Char → Bool
  | [], _ => true
  | _ :: _, [] => false
  | RTok.dot :: ts, _ :: cs => matchHere ts cs
  | RTok.lit l :: ts, c :: cs => charEqCI l c && matchHere ts cs

/-- `re.search`: match the pattern at some position of the text. -/
def reSearch (ts : List RTok) : List Char → Bool
  | [] => matchHere ts []
  | c :: cs => matchHere ts (c :: cs) || reSearch ts cs

/-- One cell of `Series.str.contains(pat, case=False)`: compile `pat` as a
case-insensitive regular expression and search the cell's text. -/
def strContainsCI (cell pat : String) : Bool :=
  reSearch (compilePat pat.data) cell.data

/-- `app.py` lines 144-151: the search box filter.  An empty query string is
falsy in Python, so no filtering happens; otherwise keep the rows whose
rendered antecedent or consequent matches the query. -/
def searchRules (rules : List Rule) (query : String) : List Rule :=
  if query = "" then rules
  else rules.filter (fun t =>
    strContainsCI (joinComma t.antecedents) query ||
    strContainsCI (joinComma t.consequents) query)

/-- Case-insensitive literal prefix test on character lists. -/
def isPrefixCI : List Char → List Char → Bool
  | [], _ => true
  | _ :: _, [] => false
  | c :: cs, d :: ds => charEqCI c d && isPrefixCI cs ds

/-- Case-insensitive literal substring (contiguous infix) test. -/
def isInfixCI (p : List Char) : List Char → Bool
  | [] => isPrefixCI p []
  | c :: cs => isPrefixCI p (c :: cs) || isInfixCI p cs

/-- The predicate the claim asserts (spec wording): the query occurs as a
case-insensitive literal substring of the rendered antecedent or of the
rendered consequent. -/
def specKeepsLiteral (t : Rule) (q : String) : Bool :=
  isInfixCI q.data (joinComma t.antecedents).data ||
  isInfixCI q.data (joinComma t.consequents).data

lemma isInfixCI_nil (s : List Char) : isInfixCI [] s = true := by
  cases s <;> rfl

lemma matchHere_no_dot (p : List Char) (hp : '.' ∉ p) (s : List Char) :
    matchHere (compilePat p) s = isPrefixCI p s := by
  induction p generalizing s with
  | nil => cases s <;> rfl
  | cons c cs ih =>
    have hc : ¬ c = '.' := fun h => hp (by rw [h]; exact List.mem_cons_self _ _)
    have hcs : '.' ∉ cs := fun h => hp (List.mem_cons_of_mem _ h)
    have e1 : compilePat (c :: cs) = RTok.lit c :: compilePat cs := by
      simp [compilePat, hc]
    cases s with
    | nil => rw [e1]; rfl
    | cons d ds =>
      rw [e1]
      show (charEqCI c d && matchHere (compilePat cs) ds) = _
      rw [ih hcs ds]
      rfl

lemma reSearch_no_dot (p : List Char) (hp : '.' ∉ p) (s : List Char) :
    reSearch (compilePat p) s = isInfixCI p s := by
  induction s with
  | nil =>
    show matchHere (compilePat p) [] = isPrefixCI p []
    exact matchHere_no_dot p hp []
  | cons c cs ih =>
    show (matchHere (compilePat p) (c :: cs) || reSearch (compilePat p) cs) = _
    rw [matchHere_no_dot p hp, ih]
    rfl

/-- C3 counterexample: with the query "b.e" the search keeps the
bread → butter rule — the dot matches the "r" of "bread" as a regex
wildcard — although "b.e" is not a literal substring of either rendering.
The search is a regular-expression match (`str.contains` default
`regex=True`), not the literal-substring match the claim states. -/
theorem c3_counterexample :
    searchRules [⟨["bread"], ["butter"], 1, 1, 2⟩] "b.e" =
      [⟨["bread"], ["butter"], 1, 1, 2⟩] ∧
    specKeepsLiteral ⟨["bread"], ["butter"], 1, 1, 2⟩ "b.e" = false := by
  decide

/-- C3 amended: the query is interpreted as a case-insensitive
regular-expression pattern searched in the comma-joined rendering of the
antecedent or of the consequent; for queries containing none of Python's
regex metacharacters this is exactly the case-insensitive
literal-substring filter the claim describes, and the empty query returns
the input sequence unchanged. -/
theorem c3_search (R : List Rule) (q : String)
    (hq : ∀ c ∈ q.data, isRegexMeta c = false) :
    searchRules R "" = R ∧
    searchRules R q = R.filter (fun t => specKeepsLiteral t q) := by
  have hq : '.' ∉ q.data := fun h => absurd (hq '.' h) (by decide)
  refine ⟨rfl, ?_⟩
  by_cases hempty : q = ""
  · subst hempty
    rw [searchRules, if_pos rfl]
    symm
    apply List.filter_eq_self.mpr
    intro t _
    show (isInfixCI [] _ || isInfixCI [] _) = true
    rw [isInfixCI_nil, isInfixCI_nil]
    rfl
  · rw [searchRules, if_neg hempty]
    apply List.filter_congr
    intro t _
    show (strContainsCI (joinComma t.antecedents) q ||
      strContainsCI (joinComma t.consequents) q) = _
    rw [strContainsCI, strContainsCI, reSearch_no_dot q.data hq,
      reSearch_no_dot q.data hq]
    rfl

/-- C3 witness: the empty query is a no-op, and the all-caps query "BREAD"
(case mismatch with the rule text) still matches the bread → butter rule. -/
theorem c3_search_witness :
    (∀ c ∈ "BREAD".data, isRegexMeta c = false) ∧
    searchRules [⟨["bread"], ["butter"], 1, 1, 2⟩] "" =
      [⟨["bread"], ["butter"], 1, 1, 2⟩] ∧
    searchRules [⟨["bread"], ["butter"], 1, 1, 2⟩] "BREAD" =
      [⟨["bread"], ["butter"], 1, 1, 2⟩] := by
  refine ⟨by decide, ?_⟩
  have h := c3_search [⟨["bread"], ["butter"], 1, 1, 2⟩] "BREAD" (by decide)
  refine ⟨h.1, ?_⟩
  rw [h.2]
  decide

/-- The state of the persisted artifact `association_rules.pkl`: absent
(opening raises FileNotFoundError) or present with its records. -/
inductive Source where
  | absent : Source
  | present : List Rule → Source
deriving DecidableEq

/-- `app.py` lines 24-32: `load_model` — `joblib.load` wrapped in
`try/except FileNotFoundError`.  An absent file yields `None` (the page then
shows the error message and the remediation steps, lines 221-231, instead of
using the table); a present artifact's records are returned as-is — no
record-level validation of any kind is performed. -/
def load_model : Source → Option (List Rule)
  | Source.absent => none
  | Source.present records => some records

/-- Modelled from the spec: the Rule invariants of its DATA MODEL section
(no code in the repository checks them; `load_model` is the only loading
code): non-empty antecedent and consequent, disjoint from each other,
support and confidence in [0,1], lift ≥ 0. -/
def ruleWf (t : Rule) : Bool :=
  !t.antecedents.isEmpty && !t.consequents.isEmpty &&
  t.antecedents.all (fun x => !t.consequents.contains x) &&
  decide (0 ≤ t.support) && decide (t.support ≤ 1) &&
  decide (0 ≤ t.confidence) && decide (t.confidence ≤ 1) &&
  decide (0 ≤ t.lift)

/-- C4 counterexample: a record violating the Rule invariants (confidence 2)
loads successfully — `load_model` does no validation, so no
`LoadError(Malformed)` outcome exists, contrary to the claim. -/
theorem c4_counterexample :
    ruleWf ⟨["bread"], ["butter"], 1, 2, 1⟩ = false ∧
    load_model (Source.present [⟨["bread"], ["butter"], 1, 2, 1⟩]) =
      some [⟨["bread"], ["butter"], 1, 2, 1⟩] := by
  decide

/-- C4 amended: `load_model` fails — returning the stable no-rules state
`None`, upon which the app shows a message rather than crashing — exactly
when the source artifact is absent (FileNotFoundError); a present artifact
is returned unvalidated, even when its records violate the Rule
invariants. -/
theorem c4_load (s : Source) (records : List Rule) :
    (load_model s = none ↔ s = Source.absent) ∧
    load_model (Source.present records) = some records := by
  cases s <;> simp [load_model]

/-- One row of the display table of tab 2 ("Reglas"): the two rendered
item-set columns and the three statistics columns formatted as text
(`app.py` lines 122-141). -/
structure DisplayRow where
  antecedentsStr : String
  consequentsStr : String
  supportStr : String
  confidenceStr : String
  liftStr : String
deriving DecidableEq

/-- Left-pad a digit string with zeros to `k` characters. -/
def padZeros (k : ℕ) (s : String) : String :=
  String.mk (List.replicate (k - s.data.length) '0') ++ s

/-- Python `f"{x:.kf}"` on an exact rational: fixed-point decimal notation
with `k` digits after the point, rounding to nearest with ties to even.
Computed on the numerator and denominator so that `10^k * q` is rounded to
the integer `n`: `m = (num * 10^k) div den` is its floor and `r` the
remainder, so the fractional part is `r / den`, compared against 1/2 by
comparing `2 * r` with `den`. -/
def fmtFixed (k : ℕ) (q : ℚ) : String :=
  let d : ℤ := (q.den : ℤ)
  let num10 : ℤ := q.num * (10 : ℤ) ^ k
  let m : ℤ := Int.ediv num10 d
  let r : ℤ := Int.emod num10 d
  let n : ℤ :=
    if 2 * r < d then m
    else if d < 2 * r then m + 1
    else if Int.emod m 2 = 0 then m else m + 1
  let a : ℕ := n.natAbs
  (if n < 0 then "-" else "") ++
    toString (a / 10 ^ k) ++ "." ++ padZeros k (toString (a % 10 ^ k))

/-- `DataFrame.to_csv` field serialization with the default QUOTE_MINIMAL:
a field containing a comma, a quote or a line break is wrapped in double
quotes, inner quotes doubled; other fields are written bare. -/
def csvField (s : String) : String :=
  if s.data.any (fun c => c = ',' || c = '"' || c = '\n' || c = '\r') then
    "\"" ++ String.mk (s.data.flatMap
      (fun c => if c = '"' then ['"', '"'] else [c])) ++ "\""
  else s

/-- One CSV line: the serialized fields joined with commas. -/
def csvLine (cells : List String) : String :=
  String.intercalate "," (cells.map csvField)

/-- `app.py` lines 122-141: one row of `display_df` built from a rule of the
filtered view: `", ".join` renderings of both item sets, support and
confidence formatted with `"{:.4f}"`, lift with `"{:.2f}"`. -/
def displayRow (t : Rule) : DisplayRow :=
  ⟨joinComma t.antecedents, joinComma t.consequents,
   fmtFixed 4 t.support, fmtFixed 4 t.confidence, fmtFixed 2 t.lift⟩

/-- The display table: one `DisplayRow` per rule of the (filtered or
searched) view, in order. -/
def display_df (view : List Rule) : List DisplayRow :=
  view.map displayRow

/-- The display column names after the rename of `app.py` line 136. -/
def csvHeader : List String :=
  ["Antecedente", "Consecuente", "Support", "Confidence", "Lift"]

/-- The lines of `display_df.to_csv(index=False)` (`app.py` line 160):
the header line followed by one line per display row. -/
def csvLines (rows : List DisplayRow) : List String :=
  csvLine csvHeader :: rows.map (fun r =>
    csvLine [r.antecedentsStr, r.consequentsStr, r.supportStr,
             r.confidenceStr, r.liftStr])

/-- `display_df.to_csv(index=False)`: every line newline-terminated. -/
def to_csv (rows : List DisplayRow) : String :=
  String.join ((csvLines rows).map (fun line => line ++ "\n"))

/-- C5 counterexample: the export's header line is the Spanish
"Antecedente,Consecuente,Support,Confidence,Lift" of `app.py` line 136, not
the claimed "Antecedent,Consequent,Support,Confidence,Lift": already on the
empty view the produced text differs from the claimed one. -/
theorem c5_counterexample :
    to_csv (display_df []) = "Antecedente,Consecuente,Support,Confidence,Lift\n" ∧
    to_csv (display_df []) ≠ "Antecedent,Consequent,Support,Confidence,Lift\n" := by
  constructor
  · decide
  · decide

/-- C5 amended: for every (possibly empty) view the export is a sequence of
newline-terminated comma-separated lines whose first line is the header row
"Antecedente,Consecuente,Support,Confidence,Lift" (the code renames the
columns to Spanish words); there is exactly one further line per rule of the
view, with support and confidence formatted to 4 decimal places and lift to
2; the empty view produces the header line only, and no failure. -/
theorem c5_export (view : List Rule) :
    (csvLines (display_df view)).head? =
      some "Antecedente,Consecuente,Support,Confidence,Lift" ∧
    (csvLines (display_df view)).length = view.length + 1 ∧
    (view = [] → to_csv (display_df view) =
      "Antecedente,Consecuente,Support,Confidence,Lift\n") ∧
    (∀ t ∈ view, displayRow t =
      ⟨joinComma t.antecedents, joinComma t.consequents,
       fmtFixed 4 t.support, fmtFixed 4 t.confidence, fmtFixed 2 t.lift⟩) := by
  refine ⟨?_, ?_, ?_, ?_⟩
  · show some (csvLine csvHeader) =
      some "Antecedente,Consecuente,Support,Confidence,Lift"
    decide
  · show (csvLine csvHeader :: (display_df view).map _).length = _
    rw [List.length_cons, List.length_map, display_df, List.length_map]
  · intro hv
    subst hv
    decide
  · intro t _
    rfl

/-- C5 witness: the export evaluated on the empty view and the row format
evaluated on a concrete rule. -/
theorem c5_export_witness :
    (([] : List Rule) = [] ∧ to_csv (display_df []) =
      "Antecedente,Consecuente,Support,Confidence,Lift\n") ∧
    ((⟨["bread"], ["butter"], 1, 1, 2⟩ : Rule) ∈
        ([⟨["bread"], ["butter"], 1, 1, 2⟩] : List Rule) ∧
      displayRow ⟨["bread"], ["butter"], 1, 1, 2⟩ =
        ⟨joinComma ["bread"], joinComma ["butter"],
         fmtFixed 4 1, fmtFixed 4 1, fmtFixed 2 2⟩) :=
  ⟨⟨rfl, (c5_export []).2.2.1 rfl⟩,
   ⟨by decide, (c5_export [⟨["bread"], ["butter"], 1, 1, 2⟩]).2.2.2
      ⟨["bread"], ["butter"], 1, 1, 2⟩ (by decide)⟩⟩

/-- The aggregate statistics the app computes over a rule collection: the
rule count (`len`), the means shown in the sidebar (`Series.mean`, `app.py`
lines 40-42) and the maxima of tab 3 (`Series.max`, lines 182-191).  pandas
returns NaN for the mean or max of an empty column (warnings are
suppressed, line 10) and the page renders that text — modelled as `none`. -/
structure Statistics where
  count : ℕ
  meanSupport : Option ℚ
  meanConfidence : Option ℚ
  meanLift : Option ℚ
  maxLift : Option ℚ
  maxConfidence : Option ℚ
deriving DecidableEq

/-- `Series.mean`: arithmetic mean, NaN (`none`) on an empty column. -/
def seriesMean (xs : List ℚ) : Option ℚ :=
  if xs.isEmpty then none else some (xs.sum / xs.length)

/-- `Series.max`: maximum, NaN (`none`) on an empty column. -/
def seriesMax (xs : List ℚ) : Option ℚ :=
  xs.max?

/-- The statistics of a rule collection, as the app computes them. -/
def computeStatistics (rules : List Rule) : Statistics :=
  ⟨rules.length,
   seriesMean (rules.map Rule.support),
   seriesMean (rules.map Rule.confidence),
   seriesMean (rules.map Rule.lift),
   seriesMax (rules.map Rule.lift),
   seriesMax (rules.map Rule.confidence)⟩

/-- C6: on the empty rule sequence the statistics are the explicit no-data
record — count 0 and the NaN marker `none` for every mean and maximum.  The
embedded computation is a total function (nothing can be raised), and the
empty case never reaches the division of the mean. -/
theorem c6_empty_statistics :
    computeStatistics [] = ⟨0, none, none, none, none, none⟩ := rfl
